import Mathlib

/-!
Verification development for the BASIC-subset interpreter in `basic.py`
(class `BasicInterpreter` and the helper `convert_basic_expr`).

Strings are embedded as `List Char`.  Python string primitives
(`strip`, `upper`, `split`, `replace`, `in`, `startswith`) are embedded as
explicit recursive functions over `List Char`.  The two regular expressions
of `convert_basic_expr` and the three drawing-command patterns are embedded
as deterministic scanners that implement the search semantics of those
concrete patterns.  Recursions whose Python counterpart is a `while` loop
or a string-shrinking recursion are given an explicit fuel argument, always
called with a fuel that provably exceeds the number of iterations the
Python code can perform, so the embedded functions are total and reduce
inside the kernel.
-/

namespace Basic

/-- The apostrophe character (code point 39), the comment starter of the DSL. -/
def aposChar : Char := Char.ofNat 39

/-- Whitespace set of Python `str.strip()` / regex `\s`:
space, tab, newline, carriage return, vertical tab, form feed. -/
def isPySpace (c : Char) : Bool :=
  c = ' ' || c = '\t' || c = '\n' || c = '\r' || c = Char.ofNat 11 || c = Char.ofNat 12

/-- Python `str.strip()`: drop whitespace from both ends. -/
def pyStrip (l : List Char) : List Char :=
  ((l.dropWhile isPySpace).reverse.dropWhile isPySpace).reverse

/-- Python `str.upper()` (ASCII, which is all the interpreter uses). -/
def toUpperL (l : List Char) : List Char := l.map Char.toUpper

/-- Helper for `pyStartsWith`, recursive on the pattern (so that the test
reduces even when only a prefix of the subject is known). -/
def pyStartsWithA : List Char → List Char → Bool
  | [], _ => true
  | _ :: _, [] => false
  | p :: ps, c :: cs => c = p && pyStartsWithA ps cs

/-- Python `str.startswith(pat)`. -/
def pyStartsWith (l pat : List Char) : Bool := pyStartsWithA pat l

/-- Split on the first occurrence of a (nonempty) pattern:
`splitFirst pat l = some (before, after)` with `l = before ++ pat ++ after`,
embedding Python `l.split(pat, 1)` when the pattern occurs; `none` embeds
the "`pat not in l`" case. -/
def splitFirst (pat : List Char) : List Char → Option (List Char × List Char)
  | [] => if pyStartsWith [] pat then some ([], []) else none
  | c :: rest =>
    if pyStartsWith (c :: rest) pat then some ([], (c :: rest).drop pat.length)
    else (splitFirst pat rest).map (fun p => (c :: p.1, p.2))

/-- Python `pat in l` for strings. -/
def containsSub (pat l : List Char) : Bool := (splitFirst pat l).isSome

/-- Python `str.replace(pat, rep)` (all non-overlapping occurrences, left to
right), with fuel; `pyReplace` below supplies sufficient fuel. -/
def pyReplaceF (pat rep : List Char) : Nat → List Char → List Char
  | 0, l => l
  | fuel + 1, l =>
    if pyStartsWith l pat && !pat.isEmpty then
      rep ++ pyReplaceF pat rep fuel (l.drop pat.length)
    else match l with
      | [] => []
      | c :: rest => c :: pyReplaceF pat rep fuel rest

/-- Python `str.replace(pat, rep)` for a nonempty pattern. -/
def pyReplace (pat rep l : List Char) : List Char :=
  pyReplaceF pat rep (l.length + 1) l

/-- Python `str.split(ch)` for a one-character separator (keeps empty pieces). -/
def splitAllChar (ch : Char) (l : List Char) : List (List Char) :=
  l.foldr
    (fun c acc =>
      match acc with
      | [] => [[c]]
      | a :: rest => if c = ch then [] :: a :: rest else (c :: a) :: rest)
    [[]]

/-- Python `str.split()` with no argument: split on whitespace runs,
dropping empty pieces (fueled helper). -/
def pySplitWsF : Nat → List Char → List (List Char)
  | 0, _ => []
  | fuel + 1, l =>
    let l1 := l.dropWhile isPySpace
    match l1 with
    | [] => []
    | _ :: _ =>
        l1.takeWhile (fun c => !isPySpace c) ::
          pySplitWsF fuel (l1.dropWhile (fun c => !isPySpace c))

/-- Python `str.split()` with no argument. -/
def pySplitWs (l : List Char) : List (List Char) := pySplitWsF (l.length + 1) l

/-! ## The expression translator (`convert_basic_expr`, basic.py:771) -/

/-- Lookbehind test of the regex `(?<![<>!])=`: the character before a
candidate `=` must not be `<`, `>` or `!` (start of string passes). -/
def prevOkC : Option Char → Bool
  | none => true
  | some c => !(c = '<' || c = '>' || c = '!')

/-- Lookahead test of the regex `=(?![=<>])`: the character after a
candidate `=` must not be `=`, `<` or `>` (end of string passes). -/
def nextOkL : List Char → Bool
  | [] => true
  | c :: _ => !(c = '=' || c = '<' || c = '>')

/-- Embedding of `re.sub(r"(?<![<>!])=(?![=<>])", "==", expr)`: a left to
right scan; `prev` is the input character just before the current suffix. -/
def eqSub : Option Char → List Char → List Char
  | _, [] => []
  | prev, c :: rest =>
    if c = '=' && prevOkC prev && nextOkL rest then
      '=' :: '=' :: eqSub (some c) rest
    else
      c :: eqSub (some c) rest

/-- ASCII letter test, the class `[A-Za-z]` of the dollar-stripping regex. -/
def isAsciiLetter (c : Char) : Bool :=
  ('A' ≤ c && c ≤ 'Z') || ('a' ≤ c && c ≤ 'z')

/-- Embedding of `re.sub(r"([A-Za-z]+)\$", r"\1", expr)`: a dollar sign is
deleted exactly when the input character immediately before it is a letter
(the captured letter run is kept, so the substitution amounts to deleting
such dollar signs). -/
def dollarStrip : Option Char → List Char → List Char
  | _, [] => []
  | prev, c :: rest =>
    if c = '$' && (match prev with | some p => isAsciiLetter p | none => false) then
      dollarStrip (some c) rest
    else
      c :: dollarStrip (some c) rest

/-- `convert_basic_expr` (basic.py:771): rewrite a BASIC expression into the
form handed to the evaluator, by the four source rewrites in order:
`" OR "` to `" or "`, `" AND "` to `" and "`, the bare-`=` regex, and the
trailing-dollar regex. -/
def convert_basic_expr (expr : List Char) : List Char :=
  dollarStrip none (eqSub none (pyReplace " AND ".toList " and ".toList
    (pyReplace " OR ".toList " or ".toList expr)))

/-- Positional description of the bare-`=` rewrite, following the spec
sentence: each `=` whose input neighbours pass the lookbehind/lookahead
tests is replaced by `==`, every other character is kept.  `prev` plays
the part of the character before position 0. -/
def eqSpecP (prev : Option Char) (l : List Char) : List Char :=
  ((List.range l.length).map fun i =>
    match l.get? i with
    | none => []
    | some c =>
      if c = '=' && prevOkC (match i with | 0 => prev | Nat.succ j => l.get? j)
          && nextOkL (l.drop (i + 1)) then
        ['=', '=']
      else [c]).flatten

/-! ## Values and the variable environment -/

/-- A runtime value of the interpreter: a number (Python floats, embedded as
rationals) or a string.  Python booleans arising from comparisons are
embedded as the numbers 1 and 0. -/
inductive Value where
  | num (q : ℚ)
  | str (s : List Char)
deriving DecidableEq, Repr

/-- The variable environment `self.variables`: a Python dict from names to
values, embedded as an association list with unique keys. -/
abbrev Env := List (List Char × Value)

/-- Python dict assignment `d[n] = v`: overwrite in place or append. -/
def setVar : Env → List Char → Value → Env
  | [], n, v => [(n, v)]
  | (k, w) :: rest, n, v =>
    if k = n then (n, v) :: rest else (k, w) :: setVar rest n v

/-- Python dict lookup `d[n]`, `none` embedding a `KeyError`/`NameError`. -/
def lookupVar : Env → List Char → Option Value
  | [], _ => none
  | (k, w) :: rest, n => if k = n then some w else lookupVar rest n

/-- Python truthiness of a value (`if v:`): nonzero number, nonempty string. -/
def truthy : Value → Bool
  | .num q => q ≠ 0
  | .str s => !s.isEmpty

/-- Embed a Python bool as a value (comparisons yield `True`/`False`, which
behave as 1 and 0). -/
def boolVal (b : Bool) : Value := .num (if b then 1 else 0)

/-- Python `int()` truncation toward zero of a rational. -/
def intTrunc (q : ℚ) : Int := q.num.tdiv q.den

/-- Rational addition, written through `mkRat` so that it reduces inside the
kernel (the library addition on `ℚ` is marked irreducible). -/
def qAdd (a b : ℚ) : ℚ := mkRat (a.num * b.den + b.num * a.den) (a.den * b.den)

/-- Rational subtraction through `mkRat`. -/
def qSub (a b : ℚ) : ℚ := mkRat (a.num * b.den - b.num * a.den) (a.den * b.den)

/-- Rational multiplication through `mkRat`. -/
def qMul (a b : ℚ) : ℚ := mkRat (a.num * b.num) (a.den * b.den)

/-- Rational division through `mkRat` (the divisor is nonzero at call sites). -/
def qDiv (a b : ℚ) : ℚ :=
  let n : Int := a.num * b.den
  let d : Int := (a.den : Int) * b.num
  mkRat (if d < 0 then -n else n) d.natAbs

/-- Rational negation through `mkRat`. -/
def qNeg (a : ℚ) : ℚ := mkRat (-a.num) a.den

/-- Rational strict order through the executable `Rat.blt`. -/
def qLt (a b : ℚ) : Bool := Rat.blt a b

/-- Rational order through the executable `Rat.blt`. -/
def qLe (a b : ℚ) : Bool := !Rat.blt b a

/-- Lexicographic string order on code points, Python `<` on strings. -/
def strLt : List Char → List Char → Bool
  | [], [] => false
  | [], _ :: _ => true
  | _ :: _, [] => false
  | a :: as, b :: bs => if a < b then true else if b < a then false else strLt as bs

/-- Python `+` on values: numeric addition or string concatenation;
`none` embeds a `TypeError` on mixed operands. -/
def vAdd : Value → Value → Option Value
  | .num a, .num b => some (.num (qAdd a b))
  | .str a, .str b => some (.str (a ++ b))
  | _, _ => none

/-- Python `-` on values; `none` embeds a `TypeError`. -/
def vSub : Value → Value → Option Value
  | .num a, .num b => some (.num (qSub a b))
  | _, _ => none

/-- Python `*` on values (numeric only in this embedding). -/
def vMul : Value → Value → Option Value
  | .num a, .num b => some (.num (qMul a b))
  | _, _ => none

/-- Python `/` on values; `none` embeds `ZeroDivisionError` or `TypeError`. -/
def vDiv : Value → Value → Option Value
  | .num a, .num b => if b = 0 then none else some (.num (qDiv a b))
  | _, _ => none

/-- Python `==` on values: mixed-type operands compare unequal, no error. -/
def vEq (a b : Value) : Value :=
  match a, b with
  | .num x, .num y => boolVal (x = y)
  | .str x, .str y => boolVal (x = y)
  | _, _ => boolVal false

/-- Python `!=` on values. -/
def vNe (a b : Value) : Value :=
  match a, b with
  | .num x, .num y => boolVal (x ≠ y)
  | .str x, .str y => boolVal (x ≠ y)
  | _, _ => boolVal true

/-- Python `<` on values; `none` embeds a `TypeError` on mixed operands. -/
def vLt : Value → Value → Option Value
  | .num a, .num b => some (boolVal (qLt a b))
  | .str a, .str b => some (boolVal (strLt a b))
  | _, _ => none

/-- Python `<=` on values. -/
def vLe : Value → Value → Option Value
  | .num a, .num b => some (boolVal (qLe a b))
  | .str a, .str b => some (boolVal (strLt a b || a = b))
  | _, _ => none

/-- Python `>` on values. -/
def vGt : Value → Value → Option Value
  | .num a, .num b => some (boolVal (qLt b a))
  | .str a, .str b => some (boolVal (strLt b a))
  | _, _ => none

/-- Python `>=` on values. -/
def vGe : Value → Value → Option Value
  | .num a, .num b => some (boolVal (qLe b a))
  | .str a, .str b => some (boolVal (strLt b a || a = b))
  | _, _ => none

/-- The built-in `CHR(x)` of the evaluator environment, `chr(int(x))` in the
source; `none` embeds the `ValueError` on an out-of-range code point
(Lean-invalid surrogate code points are also mapped to `none`). -/
def chrV (q : ℚ) : Option Value :=
  let n := intTrunc q
  if (0 ≤ n ∧ n < 55296) ∨ (57344 ≤ n ∧ n < 1114112) then
    some (.str [Char.ofNat n.toNat])
  else none

/-! ## The expression evaluator

The source (basic.py:862) hands the translated expression text to the host
language evaluator: `eval(conv_expr, {}, env)` where `env` is a copy of the
variables plus the two built-ins.  The host evaluator is not part of this
repository.  Modelled from the spec: the closed expression grammar of
section 4.2 (arithmetic, comparison, logical operations, string literals,
identifier lookup, and the `CHR` built-in), evaluated against the copied
environment; `none` embeds any exception the host evaluator raises
(syntax error, unknown identifier, type mismatch, division by zero,
recursion limit). -/

/-- Tokens of the translated expression language. -/
inductive Tok where
  | num (q : ℚ)
  | str (s : List Char)
  | ident (s : List Char)
  | lparen | rparen | comma | plus | minus | star | slash
  | ltT | leT | gtT | geT | eqT | neT | andT | orT
deriving DecidableEq, Repr

/-- Digits to a natural number. -/
def digitsToNat (l : List Char) : Nat :=
  l.foldl (fun a c => a * 10 + (c.toNat - 48)) 0

/-- A decimal literal `ip.fp` as a rational. -/
def ratOfDigits (ip fp : List Char) : ℚ :=
  mkRat (digitsToNat ip * 10 ^ fp.length + digitsToNat fp) (10 ^ fp.length)

/-- Identifier continuation characters. -/
def identChar (c : Char) : Bool := isAsciiLetter c || c.isDigit || c = '_'

/-- The double-quote character. -/
def dquote : Char := Char.ofNat 34

/-- Tokenizer for the translated expression text (fueled; every step consumes
at least one character, so `tokenize` below never exhausts its fuel);
`none` embeds a host syntax error. -/
def tokenizeF : Nat → List Char → Option (List Tok)
  | 0, _ => none
  | _ + 1, [] => some []
  | fuel + 1, c :: rest =>
    if isPySpace c then tokenizeF fuel rest
    else if c.isDigit then
      let ip := (c :: rest).takeWhile Char.isDigit
      let r1 := (c :: rest).dropWhile Char.isDigit
      match r1 with
      | '.' :: r2 =>
          let fp := r2.takeWhile Char.isDigit
          let r3 := r2.dropWhile Char.isDigit
          (tokenizeF fuel r3).map (Tok.num (ratOfDigits ip fp) :: ·)
      | _ => (tokenizeF fuel r1).map (Tok.num (ratOfDigits ip []) :: ·)
    else if isAsciiLetter c || c = '_' then
      let nm := (c :: rest).takeWhile identChar
      let r1 := (c :: rest).dropWhile identChar
      let t := if nm = "and".toList then Tok.andT
               else if nm = "or".toList then Tok.orT
               else Tok.ident nm
      (tokenizeF fuel r1).map (t :: ·)
    else if c = dquote then
      let sp := rest.takeWhile (fun d => d ≠ dquote)
      match rest.dropWhile (fun d => d ≠ dquote) with
      | _ :: r1 => (tokenizeF fuel r1).map (Tok.str sp :: ·)
      | [] => none
    else if c = '(' then (tokenizeF fuel rest).map (Tok.lparen :: ·)
    else if c = ')' then (tokenizeF fuel rest).map (Tok.rparen :: ·)
    else if c = ',' then (tokenizeF fuel rest).map (Tok.comma :: ·)
    else if c = '+' then (tokenizeF fuel rest).map (Tok.plus :: ·)
    else if c = '-' then (tokenizeF fuel rest).map (Tok.minus :: ·)
    else if c = '*' then (tokenizeF fuel rest).map (Tok.star :: ·)
    else if c = '/' then (tokenizeF fuel rest).map (Tok.slash :: ·)
    else if c = '<' then
      match rest with
      | '=' :: r1 => (tokenizeF fuel r1).map (Tok.leT :: ·)
      | _ => (tokenizeF fuel rest).map (Tok.ltT :: ·)
    else if c = '>' then
      match rest with
      | '=' :: r1 => (tokenizeF fuel r1).map (Tok.geT :: ·)
      | _ => (tokenizeF fuel rest).map (Tok.gtT :: ·)
    else if c = '=' then
      match rest with
      | '=' :: r1 => (tokenizeF fuel r1).map (Tok.eqT :: ·)
      | _ => none
    else if c = '!' then
      match rest with
      | '=' :: r1 => (tokenizeF fuel r1).map (Tok.neT :: ·)
      | _ => none
    else none

/-- Tokenize a translated expression. -/
def tokenize (l : List Char) : Option (List Tok) := tokenizeF (l.length + 1) l

mutual

/-- `or`-level parse-and-evaluate (Python `or` at lowest precedence).
Operand evaluation is eager in this model. -/
def pOr : Nat → Env → List Tok → Option (Value × List Tok)
  | 0, _, _ => none
  | fuel + 1, env, ts => do
    let (a, r1) ← pAnd fuel env ts
    pOrRest fuel env a r1

/-- Chain of further `or` operands. -/
def pOrRest : Nat → Env → Value → List Tok → Option (Value × List Tok)
  | 0, _, _, _ => none
  | fuel + 1, env, a, ts =>
    match ts with
    | .orT :: r1 => do
        let (b, r2) ← pAnd fuel env r1
        pOrRest fuel env (if truthy a then a else b) r2
    | _ => some (a, ts)

/-- `and`-level parse-and-evaluate. -/
def pAnd : Nat → Env → List Tok → Option (Value × List Tok)
  | 0, _, _ => none
  | fuel + 1, env, ts => do
    let (a, r1) ← pCmp fuel env ts
    pAndRest fuel env a r1

/-- Chain of further `and` operands. -/
def pAndRest : Nat → Env → Value → List Tok → Option (Value × List Tok)
  | 0, _, _, _ => none
  | fuel + 1, env, a, ts =>
    match ts with
    | .andT :: r1 => do
        let (b, r2) ← pCmp fuel env r1
        pAndRest fuel env (if truthy a then b else a) r2
    | _ => some (a, ts)

/-- Comparison level: at most one comparison operator (chained comparisons
are outside this model of the closed grammar). -/
def pCmp : Nat → Env → List Tok → Option (Value × List Tok)
  | 0, _, _ => none
  | fuel + 1, env, ts => do
    let (a, r1) ← pAdd fuel env ts
    match r1 with
    | .eqT :: r2 => do
        let (b, r3) ← pAdd fuel env r2
        some (vEq a b, r3)
    | .neT :: r2 => do
        let (b, r3) ← pAdd fuel env r2
        some (vNe a b, r3)
    | .ltT :: r2 => do
        let (b, r3) ← pAdd fuel env r2
        let v ← vLt a b
        some (v, r3)
    | .leT :: r2 => do
        let (b, r3) ← pAdd fuel env r2
        let v ← vLe a b
        some (v, r3)
    | .gtT :: r2 => do
        let (b, r3) ← pAdd fuel env r2
        let v ← vGt a b
        some (v, r3)
    | .geT :: r2 => do
        let (b, r3) ← pAdd fuel env r2
        let v ← vGe a b
        some (v, r3)
    | _ => some (a, r1)

/-- Additive level. -/
def pAdd : Nat → Env → List Tok → Option (Value × List Tok)
  | 0, _, _ => none
  | fuel + 1, env, ts => do
    let (a, r1) ← pMul fuel env ts
    pAddRest fuel env a r1

/-- Chain of further `+`/`-` operands. -/
def pAddRest : Nat → Env → Value → List Tok → Option (Value × List Tok)
  | 0, _, _, _ => none
  | fuel + 1, env, a, ts =>
    match ts with
    | .plus :: r1 => do
        let (b, r2) ← pMul fuel env r1
        let v ← vAdd a b
        pAddRest fuel env v r2
    | .minus :: r1 => do
        let (b, r2) ← pMul fuel env r1
        let v ← vSub a b
        pAddRest fuel env v r2
    | _ => some (a, ts)

/-- Multiplicative level. -/
def pMul : Nat → Env → List Tok → Option (Value × List Tok)
  | 0, _, _ => none
  | fuel + 1, env, ts => do
    let (a, r1) ← pAtom fuel env ts
    pMulRest fuel env a r1

/-- Chain of further `*`/`/` operands. -/
def pMulRest : Nat → Env → Value → List Tok → Option (Value × List Tok)
  | 0, _, _, _ => none
  | fuel + 1, env, a, ts =>
    match ts with
    | .star :: r1 => do
        let (b, r2) ← pAtom fuel env r1
        let v ← vMul a b
        pMulRest fuel env v r2
    | .slash :: r1 => do
        let (b, r2) ← pAtom fuel env r1
        let v ← vDiv a b
        pMulRest fuel env v r2
    | _ => some (a, ts)

/-- Atoms: literals, unary minus, identifier lookup, the `CHR` call, and
parenthesized expressions. -/
def pAtom : Nat → Env → List Tok → Option (Value × List Tok)
  | 0, _, _ => none
  | fuel + 1, env, ts =>
    match ts with
    | .num q :: r => some (.num q, r)
    | .str s :: r => some (.str s, r)
    | .minus :: r => do
        let (v, r1) ← pAtom fuel env r
        match v with
        | .num q => some (.num (qNeg q), r1)
        | _ => none
    | .ident nm :: .lparen :: r =>
        if nm = "CHR".toList then do
          let (v, r1) ← pOr fuel env r
          match r1, v with
          | .rparen :: r2, .num q => do
              let s ← chrV q
              some (s, r2)
          | _, _ => none
        else none
    | .ident nm :: r => (lookupVar env nm).map (·, r)
    | .lparen :: r => do
        let (v, r1) ← pOr fuel env r
        match r1 with
        | .rparen :: r2 => some (v, r2)
        | _ => none
    | _ => none

end

/-- Host evaluation of a translated expression against a read-only copy of
the variables (modelled from the spec, section 4.2): tokenize, parse and
evaluate; `none` embeds any exception the host evaluator raises.  Like the
host, a fuel (recursion) limit exists; `16 * (number of tokens + 1)` covers
every expression whose nesting the host itself would accept here. -/
def evalPy (env : Env) (conv : List Char) : Option Value := do
  let ts ← tokenize conv
  let (v, rest) ← pOr (16 * (ts.length + 1)) env ts
  if rest.isEmpty then some v else none

/-! ## The virtual screen

`pygame.Surface` is external to the repository; the raster is embedded as
the list of drawing operations applied to a base fill, with a pixel-lookup
semantics.  The filled-rectangle case matches the exact pixel set pygame
paints; the outline, circle and text cases are reasonable models of the
external library primitives (no claim depends on their exact pixel sets). -/

/-- An RGB triple. -/
abbrev Color := Nat × Nat × Nat

/-- The QBasic palette `self.colors` with `.get(c, (255,255,255))`:
out-of-range indices resolve to white. -/
def basic_color (c : Int) : Color :=
  if c = 0 then (0, 0, 0)
  else if c = 1 then (0, 0, 170)
  else if c = 2 then (0, 170, 0)
  else if c = 3 then (0, 170, 170)
  else if c = 4 then (170, 0, 0)
  else if c = 5 then (170, 0, 170)
  else if c = 6 then (170, 85, 0)
  else if c = 7 then (170, 170, 170)
  else if c = 8 then (85, 85, 85)
  else if c = 9 then (85, 85, 255)
  else if c = 10 then (85, 255, 85)
  else if c = 11 then (85, 255, 255)
  else if c = 12 then (255, 85, 85)
  else if c = 13 then (255, 85, 255)
  else if c = 14 then (255, 255, 85)
  else if c = 15 then (255, 255, 255)
  else (255, 255, 255)

/-- The raster content of a surface: a base fill with drawing operations
layered on top (newest outermost). -/
inductive Raster where
  | fill (c : Color)
  | rectFill (x y w h : Int) (c : Color) (base : Raster)
  | rectOutline (x y w h : Int) (c : Color) (base : Raster)
  | circleOutline (cx cy r : Int) (c : Color) (base : Raster)
  | diskFill (cx cy r : Int) (c : Color) (base : Raster)
  | text (s : List Char) (x y : Int) (base : Raster)
deriving DecidableEq, Repr

/-- Pixel lookup.  A filled rectangle of width `w`, height `h` at `(x, y)`
covers exactly `[x, x+w) x [y, y+h)` (empty when `w` or `h` is not
positive, matching pygame on the non-normalized rectangles the source
builds).  Text pixels are external font rendering and are not modelled
(the operation is retained in the raster but contributes no pixels here). -/
def pixelAt : Raster → Int → Int → Color
  | .fill c, _, _ => c
  | .rectFill x y w h c base, px, py =>
    if x ≤ px ∧ px < x + w ∧ y ≤ py ∧ py < y + h then c else pixelAt base px py
  | .rectOutline x y w h c base, px, py =>
    if (x ≤ px ∧ px < x + w ∧ y ≤ py ∧ py < y + h) ∧
        (px = x ∨ px = x + w - 1 ∨ py = y ∨ py = y + h - 1) then c
    else pixelAt base px py
  | .circleOutline cx cy r c base, px, py =>
    let dx := px - cx
    let dy := py - cy
    if (r - 1) * (r - 1) < dx * dx + dy * dy ∧ dx * dx + dy * dy ≤ r * r then c
    else pixelAt base px py
  | .diskFill cx cy r c base, px, py =>
    let dx := px - cx
    let dy := py - cy
    if dx * dx + dy * dy ≤ r * r then c else pixelAt base px py
  | .text _ _ _ base, px, py => pixelAt base px py

/-- A `pygame.Surface`: dimensions plus raster content. -/
structure Surface where
  width : Nat
  height : Nat
  raster : Raster
deriving DecidableEq, Repr

/-- A black surface of the given dimensions (`pygame.Surface(..)` followed
by `fill((0,0,0))`). -/
def blackSurface (w h : Nat) : Surface := ⟨w, h, .fill (0, 0, 0)⟩

/-! ## The interpreter state (`BasicInterpreter`) -/

/-- The mutable state of `BasicInterpreter` (`vars` embeds
`self.variables`, whose Python spelling is a reserved word here).  `loop_stack` holds the most
recent entry first (the Python list appends and pops at its far end).
The host font and the window geometry of the constructor play no part in
the interpreter semantics and are omitted. -/
structure BasicState where
  program_lines : List (List Char)
  pc : Nat
  vars : Env
  loop_stack : List Nat
  exit_loop : Bool
  running : Bool
  text_cursor : Int × Int
  surface : Option Surface
  screen_width : Nat
  screen_height : Nat
  last_key : List Char
deriving DecidableEq, Repr

/-- The state built by `BasicInterpreter.__init__`. -/
def initState : BasicState where
  program_lines := []
  pc := 0
  vars := []
  loop_stack := []
  exit_loop := false
  running := true
  text_cursor := (0, 1)
  surface := none
  screen_width := 320
  screen_height := 200
  last_key := []

/-- `BasicInterpreter.reset` (basic.py:829): replace the program, clear all
execution state, and create a default black surface only when none exists
yet. -/
def reset (s : BasicState) (prog : List (List Char)) : BasicState :=
  { s with
    program_lines := prog
    pc := 0
    vars := []
    loop_stack := []
    exit_loop := false
    running := true
    text_cursor := (0, 1)
    surface := some (s.surface.getD (blackSurface s.screen_width s.screen_height)) }

/-- The raster the host reads for rendering. -/
def getScreen (s : BasicState) : Option Surface := s.surface

/-- `BasicInterpreter.eval_expr` (basic.py:851): translate the expression;
if the translated text is exactly `INKEY`, return (and clear) the last key;
otherwise hand the text to the host evaluator over a copy of the variables,
and on any evaluation error substitute numeric zero. -/
def eval_expr (s : BasicState) (e : List Char) : Value × BasicState :=
  if pyStrip (convert_basic_expr e) = "INKEY".toList then
    (.str s.last_key, { s with last_key := [] })
  else
    match evalPy s.vars (convert_basic_expr e) with
    | some v => (v, s)
    | none => (.num 0, s)

/-! ## The drawing-command patterns

Embeddings of the three `re.search` calls of `execute_line`.  Each pattern
is a fixed sequence of literal characters and nonempty negated-class
repetitions, so the backtracking search is equivalent to this deterministic
scan: each `[^X]+` group extends to the next `X`, and `re.search` tries
successive start positions left to right. -/

/-- Match `[^stop]+` followed by the literal `stop`, returning the group
and the text after the consumed `stop`. -/
def takeTo (stop : Char) (l : List Char) : Option (List Char × List Char) :=
  let a := l.takeWhile (fun c => c ≠ stop)
  match l.dropWhile (fun c => c ≠ stop) with
  | [] => none
  | _ :: rest => if a.isEmpty then none else some (a, rest)

/-- Groups of the `LINE` pattern
`\(([^,]+),([^)]+)\)-\(([^,]+),([^)]+)\),([^,]+)(?:,\s*(BF))?` (searched
with `re.IGNORECASE`, which only affects the literal `BF`). -/
structure LineArgs where
  g1 : List Char
  g2 : List Char
  g3 : List Char
  g4 : List Char
  g5 : List Char
  bf : Bool
deriving DecidableEq, Repr

/-- Try the `LINE` pattern at the start of `l`. -/
def lineMatchAt (l : List Char) : Option LineArgs :=
  match l with
  | '(' :: r0 => do
    let (g1, r1) ← takeTo ',' r0
    let (g2, r2) ← takeTo ')' r1
    match r2 with
    | '-' :: '(' :: r3 => do
      let (g3, r4) ← takeTo ',' r3
      let (g4, r5) ← takeTo ')' r4
      match r5 with
      | ',' :: r6 =>
        let g5 := r6.takeWhile (fun c => c ≠ ',')
        if g5.isEmpty then none
        else
          let bf :=
            match r6.dropWhile (fun c => c ≠ ',') with
            | ',' :: r8 =>
              match r8.dropWhile isPySpace with
              | b :: f :: _ => (b = 'B' || b = 'b') && (f = 'F' || f = 'f')
              | _ => false
            | _ => false
          some ⟨g1, g2, g3, g4, g5, bf⟩
      | _ => none
    | _ => none
  | _ => none

/-- `re.search`: try the matcher at each start position, left to right. -/
def searchF {α : Type} (m : List Char → Option α) : List Char → Option α
  | [] => m []
  | c :: rest =>
    match m (c :: rest) with
    | some r => some r
    | none => searchF m rest

/-- `re.search` for the `LINE` pattern. -/
def lineSearch (l : List Char) : Option LineArgs := searchF lineMatchAt l

/-- Groups of the `CIRCLE` pattern `\(([^,]+),([^)]+)\),([^,]+),(.+)`. -/
structure CircleArgs where
  g1 : List Char
  g2 : List Char
  g3 : List Char
  g4 : List Char
deriving DecidableEq, Repr

/-- Try the `CIRCLE` pattern at the start of `l`. -/
def circleMatchAt (l : List Char) : Option CircleArgs :=
  match l with
  | '(' :: r0 => do
    let (g1, r1) ← takeTo ',' r0
    let (g2, r2) ← takeTo ')' r1
    match r2 with
    | ',' :: r3 => do
      let (g3, r4) ← takeTo ',' r3
      if r4.isEmpty then none else some ⟨g1, g2, g3, r4⟩
    | _ => none
  | _ => none

/-- `re.search` for the `CIRCLE` pattern. -/
def circleSearch (l : List Char) : Option CircleArgs := searchF circleMatchAt l

/-- Groups of the `PAINT` pattern `\(([^,]+),([^)]+)\),(.+)`. -/
structure PaintArgs where
  g1 : List Char
  g2 : List Char
  g3 : List Char
deriving DecidableEq, Repr

/-- Try the `PAINT` pattern at the start of `l`. -/
def paintMatchAt (l : List Char) : Option PaintArgs :=
  match l with
  | '(' :: r0 => do
    let (g1, r1) ← takeTo ',' r0
    let (g2, r2) ← takeTo ')' r1
    match r2 with
    | ',' :: r3 => if r3.isEmpty then none else some ⟨g1, g2, r3⟩
    | _ => none
  | _ => none

/-- `re.search` for the `PAINT` pattern. -/
def paintSearch (l : List Char) : Option PaintArgs := searchF paintMatchAt l

/-! ## Value-to-host conversions -/

/-- A run of decimal digits with an optional sign, Python `int(str)`. -/
def parseSignedDigits (l : List Char) : Option Int :=
  match l with
  | '-' :: ds =>
    if !ds.isEmpty && ds.all Char.isDigit then some (-(digitsToNat ds : Int)) else none
  | '+' :: ds =>
    if !ds.isEmpty && ds.all Char.isDigit then some (digitsToNat ds) else none
  | ds =>
    if !ds.isEmpty && ds.all Char.isDigit then some (digitsToNat ds) else none

/-- Python `int(v)`: truncate a number toward zero, or parse an integer
string; `none` embeds the `ValueError`/`TypeError`. -/
def intOfValue : Value → Option Int
  | .num q => some (intTrunc q)
  | .str s => parseSignedDigits (pyStrip s)

/-- An unsigned decimal literal with an optional fractional part. -/
def parseUnsignedFloat (l : List Char) : Option ℚ :=
  let ip := l.takeWhile Char.isDigit
  match l.dropWhile Char.isDigit with
  | [] => if ip.isEmpty then none else some (ratOfDigits ip [])
  | '.' :: fp =>
    if fp.all Char.isDigit && !(ip.isEmpty && fp.isEmpty) then
      some (ratOfDigits ip fp)
    else none
  | _ => none

/-- Python `float(v)`: a number unchanged, or a parsed decimal string
(exponent forms are outside this model); `none` embeds the error. -/
def floatOfValue : Value → Option ℚ
  | .num q => some q
  | .str s =>
    match pyStrip s with
    | '-' :: r => (parseUnsignedFloat r).map qNeg
    | '+' :: r => parseUnsignedFloat r
    | r => parseUnsignedFloat r

/-- Python `str(v)` as stored into the retained text operation.  The host
float formatting is external; numbers are kept in an internal exact form
(the text operation contributes no modelled pixels, see `pixelAt`). -/
def strOfValue : Value → List Char
  | .num q => (if q.num < 0 then ['-'] else []) ++
      Nat.toDigits 10 q.num.natAbs ++ ['/'] ++ Nat.toDigits 10 q.den
  | .str s => s

/-- `self.font.size("A")[0]`, an external host font metric. -/
def fontCellW : Int := 10

/-- `self.font.get_height()`, an external host font metric. -/
def fontHeight : Int := 24

/-- Result of executing one line: normal completion carrying the
"a delay was hit" flag returned by `execute_line`, or an uncaught host
exception escaping it. -/
inductive LineResult where
  | ok (delay_hit : Bool)
  | exn
deriving DecidableEq, Repr

/-- The forward scan of the block conditional (basic.py:914): consume lines
from `pc` until one whose stripped uppercase text is `END IF` has been
consumed, or the program ends; returns the new `pc`.  The fuel is called
with `prog.length`, an upper bound on the iterations. -/
def scanEndIfF : Nat → List (List Char) → Nat → Nat
  | 0, _, pc => pc
  | fuel + 1, prog, pc =>
    if pc < prog.length then
      if toUpperL (pyStrip (prog.getD pc [])) = "END IF".toList then pc + 1
      else scanEndIfF fuel prog (pc + 1)
    else pc

/-- The `LOOP` command (basic.py:919): with `exit_loop` set, pop the stack
into `pc` and clear the flag; otherwise jump `pc` to the stack top; an
empty stack leaves `pc` alone in both cases. -/
def cmdLoop (s : BasicState) : BasicState × LineResult :=
  if s.exit_loop then
    match s.loop_stack with
    | t :: rest => ({ s with pc := t, loop_stack := rest, exit_loop := false }, .ok false)
    | [] => ({ s with exit_loop := false }, .ok false)
  else
    match s.loop_stack with
    | t :: _ => ({ s with pc := t }, .ok false)
    | [] => (s, .ok false)

/-- The `SCREEN` command (basic.py:934): only mode `13` creates the fixed
320 by 200 black surface; anything else is a no-op. -/
def cmdScreen (s : BasicState) (line : List Char) : BasicState × LineResult :=
  if 2 ≤ (pySplitWs line).length && (pySplitWs line).getD 1 [] = "13".toList then
    ({ s with screen_width := 320, screen_height := 200,
              surface := some (blackSurface 320 200) }, .ok false)
  else (s, .ok false)

/-- The `CLS` command: fill the surface black when one exists. -/
def cmdCls (s : BasicState) : BasicState × LineResult :=
  match s.surface with
  | some surf => ({ s with surface := some { surf with raster := .fill (0, 0, 0) } }, .ok false)
  | none => (s, .ok false)

/-- The shared body of `CONST` and plain assignment: strip the name, drop
every dollar sign from it, evaluate the right-hand side, bind. -/
def cmdBind (s : BasicState) (v e : List Char) : BasicState × LineResult :=
  match eval_expr s (pyStrip e) with
  | (val, s1) =>
    ({ s1 with vars := setVar s1.vars ((pyStrip v).filter (fun c => c ≠ '$')) val },
      .ok false)

/-- The `LOCATE` command: two comma-separated expressions set the text
cursor as `(column, row)`; `int()` of a non-numeric value is the uncaught
host error. -/
def cmdLocate (s : BasicState) (line : List Char) : BasicState × LineResult :=
  if containsSub [','] (pyStrip (line.drop 6)) then
    match eval_expr s (pyStrip ((splitAllChar ',' (pyStrip (line.drop 6))).getD 0 [])) with
    | (rv, s1) =>
      match intOfValue rv with
      | none => (s1, .exn)
      | some row =>
        match eval_expr s1 (pyStrip ((splitAllChar ',' (pyStrip (line.drop 6))).getD 1 [])) with
        | (cv, s2) =>
          match intOfValue cv with
          | none => (s2, .exn)
          | some col => ({ s2 with text_cursor := (col, row) }, .ok false)
  else (s, .ok false)

/-- One `;`-separated segment of a `PRINT` argument: a nonempty stripped
segment is evaluated and its text appended to the output accumulator. -/
def printStep (acc : List Char × BasicState) (p : List Char) : List Char × BasicState :=
  if (pyStrip p).isEmpty then acc
  else
    match eval_expr acc.2 (pyStrip p) with
    | (v, st) => (acc.1 ++ strOfValue v, st)

/-- The `PRINT` command: evaluate the nonempty `;`-separated segments in
order, blit their concatenation at the cursor cell, advance the cursor. -/
def cmdPrint (s : BasicState) (line : List Char) : BasicState × LineResult :=
  match (splitAllChar ';' (pyStrip (line.drop 5))).foldl printStep ([], s) with
  | (out, s2) =>
    match s2.surface with
    | some surf =>
      ({ s2 with
          surface := some { surf with
            raster := .text out (s2.text_cursor.1 * fontCellW)
              ((s2.text_cursor.2 - 1) * fontHeight) surf.raster }
          text_cursor := (0, s2.text_cursor.2 + 1) }, .ok false)
    | none => (s2, .ok false)

/-- The `LINE` command (basic.py:994): on a pattern match with a surface
present, evaluate both corners and the color, and paint the raw
(non-normalized) rectangle, filled when the `BF` flag matched. -/
def cmdLine (s : BasicState) (line : List Char) : BasicState × LineResult :=
  match lineSearch line with
  | some a =>
    match s.surface with
    | some surf =>
      match eval_expr s (pyStrip a.g1) with
      | (x1v, s1) =>
      match eval_expr s1 (pyStrip a.g2) with
      | (y1v, s2) =>
      match eval_expr s2 (pyStrip a.g3) with
      | (x2v, s3) =>
      match eval_expr s3 (pyStrip a.g4) with
      | (y2v, s4) =>
      match eval_expr s4 (pyStrip a.g5) with
      | (cv, s5) =>
        match intOfValue cv with
        | none => (s5, .exn)
        | some ci =>
          match (do
            let rx ← intOfValue x1v
            let ry ← intOfValue y1v
            let wv ← vSub x2v x1v
            let rw ← intOfValue wv
            let hv ← vSub y2v y1v
            let rh ← intOfValue hv
            pure (rx, ry, rw, rh) : Option (Int × Int × Int × Int)) with
          | none => (s5, .exn)
          | some (rx, ry, rw, rh) =>
            let col := basic_color ci
            let r :=
              if a.bf then Raster.rectFill rx ry rw rh col surf.raster
              else Raster.rectOutline rx ry rw rh col surf.raster
            ({ s5 with surface := some { surf with raster := r } }, .ok false)
    | none => (s, .ok false)
  | none => (s, .ok false)

/-- The `CIRCLE` command (basic.py:1011): center, radius and color drawn as
an outline circle. -/
def cmdCircle (s : BasicState) (line : List Char) : BasicState × LineResult :=
  match circleSearch line with
  | some a =>
    match s.surface with
    | some surf =>
      match eval_expr s (pyStrip a.g1) with
      | (xv, s1) =>
      match eval_expr s1 (pyStrip a.g2) with
      | (yv, s2) =>
      match eval_expr s2 (pyStrip a.g3) with
      | (rv, s3) =>
      match eval_expr s3 (pyStrip a.g4) with
      | (cv, s4) =>
        match intOfValue cv with
        | none => (s4, .exn)
        | some ci =>
          match (do
            let rx ← intOfValue xv
            let ry ← intOfValue yv
            let rr ← intOfValue rv
            pure (rx, ry, rr) : Option (Int × Int × Int)) with
          | none => (s4, .exn)
          | some (rx, ry, rr) =>
            ({ s4 with surface := some { surf with
                raster := .circleOutline rx ry rr (basic_color ci) surf.raster } },
              .ok false)
    | none => (s, .ok false)
  | none => (s, .ok false)

/-- The `PAINT` command (basic.py:1021): not a flood fill, a fixed filled
disk of radius 3 at the point. -/
def cmdPaint (s : BasicState) (line : List Char) : BasicState × LineResult :=
  match paintSearch line with
  | some a =>
    match s.surface with
    | some surf =>
      match eval_expr s (pyStrip a.g1) with
      | (xv, s1) =>
      match eval_expr s1 (pyStrip a.g2) with
      | (yv, s2) =>
      match eval_expr s2 (pyStrip a.g3) with
      | (cv, s3) =>
        match intOfValue cv with
        | none => (s3, .exn)
        | some ci =>
          match (do
            let rx ← intOfValue xv
            let ry ← intOfValue yv
            pure (rx, ry) : Option (Int × Int)) with
          | none => (s3, .exn)
          | some (rx, ry) =>
            ({ s3 with surface := some { surf with
                raster := .diskFill rx ry 3 (basic_color ci) surf.raster } },
              .ok false)
    | none => (s, .ok false)
  | none => (s, .ok false)

/-- The `_DELAY` command (basic.py:1032): evaluate the seconds argument
(`float()` of a non-numeric value is the uncaught host error), sleep on the
host, and report the delay so `step` returns. -/
def cmdDelay (s : BasicState) (line : List Char) : BasicState × LineResult :=
  match eval_expr s (pyStrip (line.drop 6)) with
  | (v, s1) =>
    match floatOfValue v with
    | some _ => (s1, .ok true)
    | none => (s1, .exn)

/-- The `IF <cond> THEN <rest>` command (basic.py:896), with the recursive
dispatch of an inline `<rest>` statement passed in as `recur`.  A line that
starts with `IF` but whose uppercase text lacks `THEN` is a no-op; `THEN`
present in the uppercase text but absent from the raw line (a lowercase
`then`) is the uncaught `IndexError` of `parts[1]`. -/
def cmdIfThen (recur : BasicState → List Char → BasicState × LineResult)
    (s : BasicState) (line : List Char) : BasicState × LineResult :=
  if containsSub "THEN".toList (toUpperL line) then
    match splitFirst "THEN".toList line with
    | none => (s, .exn)
    | some (before, after) =>
      match eval_expr s (pyStrip (before.drop 2)) with
      | (cv, s1) =>
        if truthy cv then
          if toUpperL (pyStrip after) = "EXIT DO".toList then
            ({ s1 with exit_loop := true }, .ok false)
          else if (pyStrip after).isEmpty then
            (s1, .ok false)
          else
            match recur s1 (pyStrip after) with
            | (s2, .exn) => (s2, .exn)
            | (s2, .ok _) => (s2, .ok false)
        else
          if (pyStrip after).isEmpty then
            ({ s1 with
                pc := scanEndIfF s1.program_lines.length s1.program_lines s1.pc },
              .ok false)
          else (s1, .ok false)
  else (s, .ok false)

/-- The tail of the keyword dispatch of `execute_line`, reached only when
the line contains no `=` (otherwise it is an assignment). -/
def dispatchRest (s : BasicState) (line : List Char) : BasicState × LineResult :=
  if pyStartsWith (toUpperL line) "LOCATE".toList then cmdLocate s line
  else if pyStartsWith (toUpperL line) "PRINT".toList then cmdPrint s line
  else if pyStartsWith (toUpperL line) "LINE".toList then cmdLine s line
  else if pyStartsWith (toUpperL line) "CIRCLE".toList then cmdCircle s line
  else if pyStartsWith (toUpperL line) "PAINT".toList then cmdPaint s line
  else if pyStartsWith (toUpperL line) "_DELAY".toList then cmdDelay s line
  else if toUpperL line = "END".toList then ({ s with running := false }, .ok false)
  else (s, .ok false)

/-- `BasicInterpreter.execute_line` (basic.py:893): dispatch on the leading
keyword of the line, in source order, with fuel for the recursive dispatch
of an inline `IF ... THEN <statement>`; each recursion level loses at least
the six characters `IF`/`THEN` from the line, so the canonical fuel
`line.length + 1` of `execute_line` never runs out (`LineResult.exn` at
fuel zero is unreachable from it). -/
def executeLineF : Nat → BasicState → List Char → BasicState × LineResult
  | 0, s, _ => (s, .exn)
  | fuel + 1, s, line =>
    if pyStartsWith (toUpperL line) "IF".toList then
      cmdIfThen (executeLineF fuel) s line
    else if toUpperL line = "END IF".toList then (s, .ok false)
    else if toUpperL line = "DO".toList then
      ({ s with loop_stack := s.pc :: s.loop_stack }, .ok false)
    else if toUpperL line = "LOOP".toList then cmdLoop s
    else if pyStartsWith (toUpperL line) "SCREEN".toList then cmdScreen s line
    else if toUpperL line = "CLS".toList then cmdCls s
    else if pyStartsWith (toUpperL line) "CONST".toList then
      match splitFirst ['='] (pyStrip (line.drop 5)) with
      | some (v, e) => cmdBind s v e
      | none => (s, .ok false)
    else
      match splitFirst ['='] line with
      | some (v, e) => cmdBind s v e
      | none => dispatchRest s line

/-- `BasicInterpreter.execute_line` at its canonical (sufficient) fuel. -/
def execute_line (s : BasicState) (line : List Char) : BasicState × LineResult :=
  executeLineF (line.length + 1) s line

/-- Comment stripping of `step` (basic.py:884): cut at the first apostrophe
(everywhere, string literals included) and strip again; without an
apostrophe the line is left as fetched. -/
def commentStrip (raw : List Char) : List Char :=
  match splitFirst [aposChar] raw with
  | some (before, _) => pyStrip before
  | none => raw

/-- One iteration of the `while` loop of `BasicInterpreter.step`
(basic.py:879): fetch, strip, comment-strip and execute one line.  The
boolean is `true` when the loop would go around again, `false` when it
stops (condition failed, delay hit, or a host exception escaped). -/
def stepIter (s : BasicState) : BasicState × Bool :=
  if s.running && s.pc < s.program_lines.length then
    if (commentStrip (pyStrip (s.program_lines.getD s.pc []))).isEmpty then
      ({ s with pc := s.pc + 1 }, true)
    else
      match execute_line { s with pc := s.pc + 1 }
          (commentStrip (pyStrip (s.program_lines.getD s.pc []))) with
      | (s2, .ok true) => (s2, false)
      | (s2, .ok false) => (s2, true)
      | (s2, .exn) => (s2, false)
  else (s, false)

/-- `BasicInterpreter.step` (basic.py:879): execute lines from `pc` until a
delay is hit, the program ends, `running` clears, or a host exception
escapes a line.  One unit of fuel is one loop iteration; an unbounded
`DO ... LOOP` really loops forever in the source, so the embedding makes
the iteration count explicit. -/
def stepF : Nat → BasicState → BasicState
  | 0, s => s
  | fuel + 1, s =>
    match stepIter s with
    | (s1, true) => stepF fuel s1
    | (s1, false) => s1

/-- A finite sequence of `step` calls, each with its own iteration bound. -/
def runSteps (fuels : List Nat) (s : BasicState) : BasicState :=
  fuels.foldl (fun st f => stepF f st) s

/-! ## Concrete programs used by the claims -/

/-- The `DO ... LOOP` counter program of the spec (section 8): the body
increments `counter`, an `IF counter >= 3 THEN EXIT DO` guard, `LOOP`,
then `END`. -/
def loopProg : List (List Char) :=
  ["counter = 0".toList, "DO".toList, "counter = counter + 1".toList,
   "IF counter >= 3 THEN EXIT DO".toList, "LOOP".toList, "END".toList]

/-- The interpreter states reached while running `loopProg`: only `pc`, the
binding of `counter`, the loop stack and the two flags vary. -/
def loopSt (pc : Nat) (cnt : Option ℚ) (stack : List Nat) (ex run : Bool) : BasicState :=
  { program_lines := loopProg, pc := pc,
    vars := match cnt with | none => [] | some q => [("counter".toList, .num q)],
    loop_stack := stack, exit_loop := ex, running := run,
    text_cursor := (0, 1), surface := some (blackSurface 320 200),
    screen_width := 320, screen_height := 200, last_key := [] }

/-- A delay directly followed by a halt (spec section 8). -/
def delayProg : List (List Char) := ["_DELAY 1".toList, "END".toList]

/-- An assignment from an unbound identifier followed by an ordinary one. -/
def unknownProg : List (List Char) := ["x = qq".toList, "y = 1".toList]

/-- A single filled-rectangle drawing command. -/
def drawProg : List (List Char) := ["LINE (0,0)-(10,10),15,BF".toList]

/-- The program-counter invariant of the spec (section 3): the counter is
bounded by the program length; strengthened with the loop-stack bound that
makes it inductive, and with the program text staying what `reset`
installed. -/
def pcInv (prog : List (List Char)) (s : BasicState) : Prop :=
  s.program_lines = prog ∧ s.pc ≤ prog.length ∧ ∀ x ∈ s.loop_stack, x ≤ prog.length

/-! ## Helper lemmas -/

/-- One-layer unfolding of `executeLineF` at a successor fuel (the
generated equations split per branch and are unusable for rewriting). -/
theorem executeLineF_succ (fuel : Nat) (s : BasicState) (line : List Char) :
    executeLineF (fuel + 1) s line =
      (if pyStartsWith (toUpperL line) "IF".toList then
        cmdIfThen (executeLineF fuel) s line
      else if toUpperL line = "END IF".toList then (s, .ok false)
      else if toUpperL line = "DO".toList then
        ({ s with loop_stack := s.pc :: s.loop_stack }, .ok false)
      else if toUpperL line = "LOOP".toList then cmdLoop s
      else if pyStartsWith (toUpperL line) "SCREEN".toList then cmdScreen s line
      else if toUpperL line = "CLS".toList then cmdCls s
      else if pyStartsWith (toUpperL line) "CONST".toList then
        match splitFirst ['='] (pyStrip (line.drop 5)) with
        | some (v, e) => cmdBind s v e
        | none => (s, .ok false)
      else
        match splitFirst ['='] line with
        | some (v, e) => cmdBind s v e
        | none => dispatchRest s line) := rfl

/-- `eval_expr` only ever touches `last_key` of the state it returns. -/
theorem eval_frame (s : BasicState) (e : List Char) :
    (eval_expr s e).2.program_lines = s.program_lines ∧
    (eval_expr s e).2.pc = s.pc ∧ (eval_expr s e).2.loop_stack = s.loop_stack := by
  unfold eval_expr; split
  · exact ⟨rfl, rfl, rfl⟩
  · split <;> exact ⟨rfl, rfl, rfl⟩

/-- `pcInv` moves along equalities of its three fields. -/
theorem pcInv_transfer {prog : List (List Char)} {s t : BasicState} (h : pcInv prog s)
    (hp : t.program_lines = s.program_lines) (hc : t.pc = s.pc)
    (hs : t.loop_stack = s.loop_stack) : pcInv prog t :=
  ⟨hp.trans h.1, hc ▸ h.2.1, hs ▸ h.2.2⟩

/-- `pcInv` is preserved by expression evaluation. -/
theorem pcInv_eval {prog : List (List Char)} {s : BasicState} (h : pcInv prog s)
    (e : List Char) : pcInv prog (eval_expr s e).2 :=
  pcInv_transfer h (eval_frame s e).1 (eval_frame s e).2.1 (eval_frame s e).2.2

/-- `pcInv` transported through a destructured evaluation equation. -/
theorem pcInv_eval_pair {prog : List (List Char)} {s s1 : BasicState} {rv : Value}
    {e : List Char} (h : pcInv prog s) (heq : eval_expr s e = (rv, s1)) :
    pcInv prog s1 := by
  have h2 := pcInv_eval h e
  rw [heq] at h2
  exact h2

/-- The block-conditional scan never moves `pc` past the program end. -/
theorem scanEndIfF_le (prog : List (List Char)) :
    ∀ (fuel pc : Nat), pc ≤ prog.length → scanEndIfF fuel prog pc ≤ prog.length := by
  intro fuel
  induction fuel with
  | zero => intro pc h; exact h
  | succ f ih =>
    intro pc h
    unfold scanEndIfF
    split
    · split
      · omega
      · exact ih (pc + 1) (by omega)
    · exact h

/-- `cmdLoop` preserves `pcInv`: the targets it jumps to come off the
loop stack, which the invariant bounds. -/
theorem cmdLoop_pcInv {prog : List (List Char)} {s : BasicState} (h : pcInv prog s) :
    pcInv prog (cmdLoop s).1 := by
  unfold cmdLoop
  split
  · split
    · rename_i t rest heq
      exact ⟨h.1, h.2.2 t (heq ▸ List.mem_cons_self t rest),
        fun x hx => h.2.2 x (heq ▸ List.mem_cons_of_mem t hx)⟩
    · exact pcInv_transfer h rfl rfl rfl
  · split
    · rename_i t rest heq
      exact ⟨h.1, h.2.2 t (heq ▸ List.mem_cons_self t rest), h.2.2⟩
    · exact h

/-- `cmdScreen` preserves `pcInv`. -/
theorem cmdScreen_pcInv {prog : List (List Char)} {s : BasicState} (h : pcInv prog s)
    (line : List Char) : pcInv prog (cmdScreen s line).1 := by
  unfold cmdScreen
  split
  · exact pcInv_transfer h rfl rfl rfl
  · exact h

/-- `cmdCls` preserves `pcInv`. -/
theorem cmdCls_pcInv {prog : List (List Char)} {s : BasicState} (h : pcInv prog s) :
    pcInv prog (cmdCls s).1 := by
  unfold cmdCls
  split
  · exact pcInv_transfer h rfl rfl rfl
  · exact h

/-- `cmdBind` preserves `pcInv`. -/
theorem cmdBind_pcInv {prog : List (List Char)} {s : BasicState} (h : pcInv prog s)
    (v e : List Char) : pcInv prog (cmdBind s v e).1 := by
  unfold cmdBind
  split
  rename_i val s1 heq
  exact pcInv_transfer (pcInv_eval_pair h heq) rfl rfl rfl

/-- `cmdLocate` preserves `pcInv`. -/
theorem cmdLocate_pcInv {prog : List (List Char)} {s : BasicState} (h : pcInv prog s)
    (line : List Char) : pcInv prog (cmdLocate s line).1 := by
  unfold cmdLocate
  split
  · split
    rename_i rv s1 heq
    split
    · exact pcInv_eval_pair h heq
    · split
      rename_i cv s2 heq2
      split
      · exact pcInv_eval_pair (pcInv_eval_pair h heq) heq2
      · exact pcInv_transfer (pcInv_eval_pair (pcInv_eval_pair h heq) heq2) rfl rfl rfl
  · exact h

/-- One print segment preserves `pcInv` of the accumulator state. -/
theorem printStep_pcInv {prog : List (List Char)} {acc : List Char × BasicState}
    (h : pcInv prog acc.2) (p : List Char) : pcInv prog (printStep acc p).2 := by
  unfold printStep
  split
  · exact h
  · split
    rename_i v st heq
    exact pcInv_eval_pair h heq

/-- The print fold preserves `pcInv`. -/
theorem foldl_printStep_pcInv {prog : List (List Char)} :
    ∀ (parts : List (List Char)) (acc : List Char × BasicState),
      pcInv prog acc.2 → pcInv prog (parts.foldl printStep acc).2 := by
  intro parts
  induction parts with
  | nil => intro acc h; exact h
  | cons p rest ih => intro acc h; exact ih _ (printStep_pcInv h p)

/-- `cmdPrint` preserves `pcInv`. -/
theorem cmdPrint_pcInv {prog : List (List Char)} {s : BasicState} (h : pcInv prog s)
    (line : List Char) : pcInv prog (cmdPrint s line).1 := by
  unfold cmdPrint
  split
  rename_i out s2 heq
  have h2 : pcInv prog s2 := by
    have h3 := @foldl_printStep_pcInv prog
      (splitAllChar (Char.ofNat 59) (pyStrip (line.drop 5))) ([], s) h
    rw [heq] at h3
    exact h3
  split
  · exact pcInv_transfer h2 rfl rfl rfl
  · exact h2

/-- `cmdLine` preserves `pcInv`. -/
theorem cmdLine_pcInv {prog : List (List Char)} {s : BasicState} (h : pcInv prog s)
    (line : List Char) : pcInv prog (cmdLine s line).1 := by
  unfold cmdLine
  split
  · split
    · split
      rename_i h1
      split
      rename_i h2
      split
      rename_i h3
      split
      rename_i h4
      split
      rename_i h5
      have hv := pcInv_eval_pair (pcInv_eval_pair (pcInv_eval_pair
        (pcInv_eval_pair (pcInv_eval_pair h h1) h2) h3) h4) h5
      split
      · exact hv
      · split
        · exact hv
        · exact pcInv_transfer hv rfl rfl rfl
    · exact h
  · exact h

/-- `cmdCircle` preserves `pcInv`. -/
theorem cmdCircle_pcInv {prog : List (List Char)} {s : BasicState} (h : pcInv prog s)
    (line : List Char) : pcInv prog (cmdCircle s line).1 := by
  unfold cmdCircle
  split
  · split
    · split
      rename_i h1
      split
      rename_i h2
      split
      rename_i h3
      split
      rename_i h4
      have hv := pcInv_eval_pair (pcInv_eval_pair (pcInv_eval_pair
        (pcInv_eval_pair h h1) h2) h3) h4
      split
      · exact hv
      · split
        · exact hv
        · exact pcInv_transfer hv rfl rfl rfl
    · exact h
  · exact h

/-- `cmdPaint` preserves `pcInv`. -/
theorem cmdPaint_pcInv {prog : List (List Char)} {s : BasicState} (h : pcInv prog s)
    (line : List Char) : pcInv prog (cmdPaint s line).1 := by
  unfold cmdPaint
  split
  · split
    · split
      rename_i h1
      split
      rename_i h2
      split
      rename_i h3
      have hv := pcInv_eval_pair (pcInv_eval_pair (pcInv_eval_pair h h1) h2) h3
      split
      · exact hv
      · split
        · exact hv
        · exact pcInv_transfer hv rfl rfl rfl
    · exact h
  · exact h

/-- `cmdDelay` preserves `pcInv`. -/
theorem cmdDelay_pcInv {prog : List (List Char)} {s : BasicState} (h : pcInv prog s)
    (line : List Char) : pcInv prog (cmdDelay s line).1 := by
  unfold cmdDelay
  split
  rename_i v s1 heq
  split
  · exact pcInv_eval_pair h heq
  · exact pcInv_eval_pair h heq

/-- `cmdIfThen` preserves `pcInv` whenever the recursive dispatch does:
the only `pc` movement is the bounded block scan. -/
theorem cmdIfThen_pcInv {prog : List (List Char)}
    (recur : BasicState → List Char → BasicState × LineResult)
    (hrec : ∀ t l, pcInv prog t → pcInv prog (recur t l).1)
    (s : BasicState) (line : List Char) (h : pcInv prog s) :
    pcInv prog (cmdIfThen recur s line).1 := by
  unfold cmdIfThen
  split
  · split
    · exact h
    · rename_i before after heqsf
      split
      rename_i cv s1 heq
      split
      · split
        · exact pcInv_transfer (pcInv_eval_pair h heq) rfl rfl rfl
        · split
          · exact pcInv_eval_pair h heq
          · split
            · rename_i s2 heq2
              have h2 := hrec s1 (pyStrip after) (pcInv_eval_pair h heq)
              rw [heq2] at h2
              exact h2
            · rename_i s2 b heq2
              have h2 := hrec s1 (pyStrip after) (pcInv_eval_pair h heq)
              rw [heq2] at h2
              exact h2
      · split
        · have hv := pcInv_eval_pair h heq
          refine ⟨hv.1, ?_, hv.2.2⟩
          simp only [hv.1]
          exact scanEndIfF_le prog _ _ hv.2.1
        · exact pcInv_eval_pair h heq
  · exact h

/-- The dispatch tail preserves `pcInv`. -/
theorem dispatchRest_pcInv {prog : List (List Char)} {s : BasicState} (h : pcInv prog s)
    (line : List Char) : pcInv prog (dispatchRest s line).1 := by
  unfold dispatchRest
  split
  · exact cmdLocate_pcInv h line
  · split
    · exact cmdPrint_pcInv h line
    · split
      · exact cmdLine_pcInv h line
      · split
        · exact cmdCircle_pcInv h line
        · split
          · exact cmdPaint_pcInv h line
          · split
            · exact cmdDelay_pcInv h line
            · split
              · exact pcInv_transfer h rfl rfl rfl
              · exact h

/-- Executing any line preserves `pcInv`, at every fuel. -/
theorem executeLineF_pcInv {prog : List (List Char)} :
    ∀ (fuel : Nat) (line : List Char) (s : BasicState),
      pcInv prog s → pcInv prog (executeLineF fuel s line).1 := by
  intro fuel
  induction fuel with
  | zero => intro line s h; exact h
  | succ f ih =>
    intro line s h
    rw [executeLineF_succ]
    split
    · exact cmdIfThen_pcInv _ (fun t l ht => ih l t ht) s line h
    · split
      · exact h
      · split
        · refine ⟨h.1, h.2.1, fun x hx => ?_⟩
          rcases List.mem_cons.mp hx with hx1 | hx2
          · rw [hx1]; exact h.2.1
          · exact h.2.2 x hx2
        · split
          · exact cmdLoop_pcInv h
          · split
            · exact cmdScreen_pcInv h line
            · split
              · exact cmdCls_pcInv h
              · split
                · split
                  · exact cmdBind_pcInv h _ _
                  · exact h
                · split
                  · exact cmdBind_pcInv h _ _
                  · exact dispatchRest_pcInv h line

/-- One `step` iteration preserves `pcInv`: the fetch requires `pc` below
the program length, so the increment keeps the bound. -/
theorem stepIter_pcInv {prog : List (List Char)} {s : BasicState} (h : pcInv prog s) :
    pcInv prog (stepIter s).1 := by
  unfold stepIter
  split
  · rename_i hcond
    have hpc : s.pc + 1 ≤ prog.length := by
      simp only [Bool.and_eq_true, decide_eq_true_eq] at hcond
      have h2 := hcond.2
      rw [h.1] at h2
      omega
    have hs1 : pcInv prog { s with pc := s.pc + 1 } := ⟨h.1, hpc, h.2.2⟩
    split
    · exact hs1
    · split
      · rename_i s2 heq
        have h3 : pcInv prog (execute_line { s with pc := s.pc + 1 }
            (commentStrip (pyStrip (s.program_lines.getD s.pc [])))).1 :=
          executeLineF_pcInv _ _ _ hs1
        rw [heq] at h3
        exact h3
      · rename_i s2 heq
        have h3 : pcInv prog (execute_line { s with pc := s.pc + 1 }
            (commentStrip (pyStrip (s.program_lines.getD s.pc [])))).1 :=
          executeLineF_pcInv _ _ _ hs1
        rw [heq] at h3
        exact h3
      · rename_i s2 heq
        have h3 : pcInv prog (execute_line { s with pc := s.pc + 1 }
            (commentStrip (pyStrip (s.program_lines.getD s.pc [])))).1 :=
          executeLineF_pcInv _ _ _ hs1
        rw [heq] at h3
        exact h3
  · exact h

/-- A whole `step` call preserves `pcInv`. -/
theorem stepF_pcInv {prog : List (List Char)} :
    ∀ (fuel : Nat) (s : BasicState), pcInv prog s → pcInv prog (stepF fuel s) := by
  intro fuel
  induction fuel with
  | zero => intro s h; exact h
  | succ f ih =>
    intro s h
    unfold stepF
    split
    · rename_i s1 heq
      have h2 := stepIter_pcInv h
      rw [heq] at h2
      exact ih s1 h2
    · rename_i s1 heq
      have h2 := stepIter_pcInv h
      rw [heq] at h2
      exact h2

/-- Any sequence of `step` calls preserves `pcInv`. -/
theorem runSteps_pcInv {prog : List (List Char)} :
    ∀ (fuels : List Nat) (s : BasicState), pcInv prog s → pcInv prog (runSteps fuels s) := by
  intro fuels
  induction fuels with
  | nil => intro s h; exact h
  | cons f rest ih =>
    intro s h
    exact ih (stepF f s) (stepF_pcInv f s h)

/-- `reset` establishes `pcInv`. -/
theorem reset_pcInv (s : BasicState) (prog : List (List Char)) : pcInv prog (reset s prog) :=
  ⟨rfl, Nat.zero_le _, fun x hx => absurd hx (List.not_mem_nil x)⟩

/-- Unrolling the positional bare-`=` description by one character. -/
theorem eqSpecP_cons (prev : Option Char) (c : Char) (l : List Char) :
    eqSpecP prev (c :: l) =
      (if c = '=' && prevOkC prev && nextOkL l then ['=', '='] else [c]) ++ eqSpecP (some c) l := by
  unfold eqSpecP
  rw [List.length_cons, List.range_succ_eq_map, List.map_cons, List.flatten_cons, List.map_map]
  congr 1
  congr 1
  apply List.map_congr_left
  intro i _
  cases i with
  | zero => rfl
  | succ j => rfl

/-- The scanning embedding of the bare-`=` regex agrees with the positional
description of the spec sentence, for every input and context. -/
theorem eqSub_eq_eqSpecP (l : List Char) : ∀ prev, eqSub prev l = eqSpecP prev l := by
  induction l with
  | nil => intro prev; rfl
  | cons c rest ih =>
    intro prev
    rw [eqSpecP_cons]
    unfold eqSub
    by_cases h : (c = '=' && prevOkC prev && nextOkL rest) = true
    · rw [if_pos h, if_pos h, ih (some c)]
      rfl
    · rw [if_neg h, if_neg h, ih (some c)]
      rfl

/-- A subject passing `pyStartsWith` decomposes as pattern plus tail. -/
theorem pyStartsWith_shape : ∀ (pat l : List Char), pyStartsWith l pat = true → ∃ t, l = pat ++ t := by
  intro pat
  induction pat with
  | nil => exact fun l _ => ⟨l, rfl⟩
  | cons p ps ih =>
    intro l h
    cases l with
    | nil => exact absurd h (by simp [pyStartsWith, pyStartsWithA])
    | cons c cs =>
      simp only [pyStartsWith, pyStartsWithA, Bool.and_eq_true, decide_eq_true_eq] at h
      obtain ⟨t, ht⟩ := ih cs h.2
      exact ⟨t, by rw [h.1, ht]; rfl⟩

/-- A character absent from a string is not found by `splitFirst`. -/
theorem splitFirst_single_none (c : Char) : ∀ (l : List Char), c ∉ l → splitFirst [c] l = none := by
  intro l
  induction l with
  | nil => intro _; rfl
  | cons a rest ih =>
    intro h
    unfold splitFirst
    rw [if_neg]
    · rw [ih (fun hm => h (List.mem_cons_of_mem a hm))]
      rfl
    · intro hceq
      simp only [pyStartsWith, pyStartsWithA, Bool.and_eq_true, decide_eq_true_eq] at hceq
      exact h (hceq.1 ▸ List.mem_cons_self a rest)

/-! ## The claims -/

/-- C1: the claim (and spec section 4.3) says a loop-close under a set
`exit_loop` pops the loop stack, clears the flag and falls through, so the
guarded counter body runs exactly 3 times.  The code instead also assigns
the popped return target to the program counter (basic.py:922), jumping
back into the body: from the mid-run state the loop-close at `pc = 5`
lands back at line 2, and the full run of the counter program executes the
body a fourth time, ending with `counter = 4` (not 3) when `END` halts. -/
theorem c1_loop_exit_reenters_body :
    execute_line (loopSt 5 (some 3) [2] true true) "LOOP".toList
      = (loopSt 2 (some 3) [] false true, .ok false) ∧
    lookupVar (stepF 16 (reset initState loopProg)).vars "counter".toList
      = some (.num 4) ∧
    (stepF 16 (reset initState loopProg)).running = false ∧
    (stepF 16 (reset initState loopProg)).pc = 6 := by
  have e : reset initState loopProg = loopSt 0 none [] false true := by decide
  have h0 : stepIter (loopSt 0 none [] false true) = (loopSt 1 (some 0) [] false true, true) := by decide
  have h1 : stepIter (loopSt 1 (some 0) [] false true) = (loopSt 2 (some 0) [2] false true, true) := by decide
  have h2 : stepIter (loopSt 2 (some 0) [2] false true) = (loopSt 3 (some 1) [2] false true, true) := by decide
  have h3 : stepIter (loopSt 3 (some 1) [2] false true) = (loopSt 4 (some 1) [2] false true, true) := by decide
  have h4 : stepIter (loopSt 4 (some 1) [2] false true) = (loopSt 2 (some 1) [2] false true, true) := by decide
  have h5 : stepIter (loopSt 2 (some 1) [2] false true) = (loopSt 3 (some 2) [2] false true, true) := by decide
  have h6 : stepIter (loopSt 3 (some 2) [2] false true) = (loopSt 4 (some 2) [2] false true, true) := by decide
  have h7 : stepIter (loopSt 4 (some 2) [2] false true) = (loopSt 2 (some 2) [2] false true, true) := by decide
  have h8 : stepIter (loopSt 2 (some 2) [2] false true) = (loopSt 3 (some 3) [2] false true, true) := by decide
  have h9 : stepIter (loopSt 3 (some 3) [2] false true) = (loopSt 4 (some 3) [2] true true, true) := by decide
  have h10 : stepIter (loopSt 4 (some 3) [2] true true) = (loopSt 2 (some 3) [] false true, true) := by decide
  have h11 : stepIter (loopSt 2 (some 3) [] false true) = (loopSt 3 (some 4) [] false true, true) := by decide
  have h12 : stepIter (loopSt 3 (some 4) [] false true) = (loopSt 4 (some 4) [] true true, true) := by decide
  have h13 : stepIter (loopSt 4 (some 4) [] true true) = (loopSt 5 (some 4) [] false true, true) := by decide
  have h14 : stepIter (loopSt 5 (some 4) [] false true) = (loopSt 6 (some 4) [] false false, true) := by decide
  have h15 : stepIter (loopSt 6 (some 4) [] false false) = (loopSt 6 (some 4) [] false false, false) := by decide
  have hfin : stepF 16 (reset initState loopProg) = loopSt 6 (some 4) [] false false := by
    rw [e]
    simp only [stepF, h0, h1, h2, h3, h4, h5, h6, h7, h8, h9, h10, h11, h12, h13, h14, h15]
  refine ⟨by decide, ?_, ?_, ?_⟩ <;> rw [hfin] <;> decide

/-- C2 counterexample: the compound operator `==` does NOT pass through the
translation unchanged — the lookbehind of the bare-`=` regex excludes only
`<`, `>`, `!`, so the second `=` of `==` is itself rewritten and `a == b`
becomes `a === b`. -/
theorem c2_double_equals_corrupted :
    convert_basic_expr "a == b".toList = "a === b".toList ∧
    convert_basic_expr "a == b".toList ≠ "a == b".toList :=
  ⟨by decide, by decide⟩

/-- C2 (amended): the bare-`=` stage replaces exactly the `=` characters
whose input neighbours pass the lookbehind/lookahead tests (the positional
reading of the spec sentence), and `<=`, `>=`, `!=` pass through unchanged;
`==`, however, is rewritten to `===`.  The spec example with `AND` and a
string-suffixed name also translates as documented. -/
theorem c2_bare_equals_translation :
    (∀ l : List Char, eqSub none l = eqSpecP none l) ∧
    convert_basic_expr "a = b".toList = "a == b".toList ∧
    convert_basic_expr "a <= b".toList = "a <= b".toList ∧
    convert_basic_expr "a >= b".toList = "a >= b".toList ∧
    convert_basic_expr "a != b".toList = "a != b".toList ∧
    convert_basic_expr "a == b".toList = "a === b".toList ∧
    convert_basic_expr "a = 1 AND b$ = \"w\"".toList
      = "a == 1 and b == \"w\"".toList :=
  ⟨fun l => eqSub_eq_eqSpecP l none, by decide, by decide, by decide, by decide,
    by decide, by decide⟩

/-- C3: the Expression Evaluator of the source is the host `eval`
(basic.py:862), and the translator performs no filtering: a payload that
calls the host import machinery reaches `eval` verbatim (no dollar signs,
bare `=` or spaced `OR`/`AND` occur in it), so evaluation is not confined
to the closed grammar. -/
theorem c3_injection_payload_reaches_host_eval :
    convert_basic_expr
        "__import__(chr(111)+chr(115)).system(chr(105)+chr(100))".toList
      = "__import__(chr(111)+chr(115)).system(chr(105)+chr(100))".toList := by
  decide

/-- C4 counterexample: after a program has drawn (a filled white rectangle)
and `reset` is called again, the screen is NOT a fresh all-black raster:
the pixel at (5, 5) of the post-reset screen is white. -/
theorem c4_reset_keeps_drawn_pixels :
    ((reset (stepF 10 (reset initState drawProg)) drawProg).surface.map
      (fun surf => pixelAt surf.raster 5 5)) = some (255, 255, 255) ∧
    ((255, 255, 255) : Color) ≠ (0, 0, 0) :=
  ⟨by decide, by decide⟩

/-- C4 (amended): every `reset` discards all execution state (`pc` 0, empty
variables, empty loop stack, `exit_loop` false, `running` true, cursor
reset, program text replaced), but the Virtual Screen is created fresh
(black, at the current screen dimensions, 320 by 200 by default) only when
none exists yet; a surface left over from a previous run persists together
with its drawn pixels. -/
theorem c4_reset_clears_state_keeps_surface (s : BasicState) (prog : List (List Char)) :
    (reset s prog).pc = 0 ∧ (reset s prog).vars = [] ∧ (reset s prog).loop_stack = [] ∧
    (reset s prog).exit_loop = false ∧ (reset s prog).running = true ∧
    (reset s prog).program_lines = prog ∧ (reset s prog).text_cursor = (0, 1) ∧
    (reset s prog).surface = some (s.surface.getD (blackSurface s.screen_width s.screen_height)) :=
  ⟨rfl, rfl, rfl, rfl, rfl, rfl, rfl, rfl⟩

/-- C5: when evaluation of an expression fails (the expression is not the
`INKEY` special case and the host evaluation errors), `eval_expr` returns
numeric zero with the engine state untouched; concretely, the program
assigning an unknown identifier to `x` still executes its next line
(`y` gets 1, `x` gets 0) and `running` stays true after the run. -/
theorem c5_eval_error_zero_keeps_running (s : BasicState) (e : List Char)
    (h1 : pyStrip (convert_basic_expr e) ≠ "INKEY".toList)
    (h2 : evalPy s.vars (convert_basic_expr e) = none) :
    eval_expr s e = (.num 0, s) ∧
    lookupVar (stepF 10 (reset initState unknownProg)).vars ['x'] = some (.num 0) ∧
    lookupVar (stepF 10 (reset initState unknownProg)).vars ['y'] = some (.num 1) ∧
    (stepF 10 (reset initState unknownProg)).running = true ∧
    (stepF 10 (reset initState unknownProg)).pc = 2 := by
  refine ⟨?_, by decide, by decide, by decide, by decide⟩
  unfold eval_expr
  rw [if_neg h1, h2]

/-- C5 witness: the hypotheses hold for the unknown identifier `qq` in the
freshly reset state, and the theorem yields zero there. -/
theorem c5_eval_error_zero_keeps_running_witness :
    (pyStrip (convert_basic_expr "qq".toList) ≠ "INKEY".toList ∧
      evalPy (reset initState []).vars (convert_basic_expr "qq".toList) = none) ∧
    eval_expr (reset initState []) "qq".toList = (.num 0, reset initState []) :=
  ⟨⟨by decide, by decide⟩,
    (c5_eval_error_zero_keeps_running (reset initState []) "qq".toList
      (by decide) (by decide)).1⟩

/-- C6: for every start state, program and finite sequence of `step` calls
after `reset`, the program counter satisfies `0 ≤ pc ≤ len(program_lines)`
(and the program text is the one `reset` installed). -/
theorem c6_pc_within_bounds (s0 : BasicState) (prog : List (List Char)) (fuels : List Nat) :
    0 ≤ (runSteps fuels (reset s0 prog)).pc ∧
    (runSteps fuels (reset s0 prog)).pc ≤ prog.length ∧
    (runSteps fuels (reset s0 prog)).program_lines = prog :=
  ⟨Nat.zero_le _, (runSteps_pcInv fuels _ (reset_pcInv s0 prog)).2.1,
    (runSteps_pcInv fuels _ (reset_pcInv s0 prog)).1⟩

/-- C7: for the program of a delay followed by a halt, the first `step`
call returns right after the delay command (`pc` = 1, the halt line not
yet executed, `running` still true) and the second `step` call executes
the halt (`running` false, `pc` past the end). -/
theorem c7_delay_yields_then_halt :
    (stepF 10 (reset initState delayProg)).pc = 1 ∧
    (stepF 10 (reset initState delayProg)).running = true ∧
    (stepF 10 (stepF 10 (reset initState delayProg))).running = false ∧
    (stepF 10 (stepF 10 (reset initState delayProg))).pc = 2 :=
  ⟨by decide, by decide, by decide, by decide⟩

/-- C8 counterexample: a malformed drawing command containing `=` is NOT a
no-op — the assignment dispatch precedes the drawing dispatch, so
`LINE x=1` (whose argument matches no coordinate pattern) creates the
variable `LINE x`, modifying engine state. -/
theorem c8_malformed_line_with_equals_assigns :
    pyStartsWith (toUpperL "LINE x=1".toList) "LINE".toList = true ∧
    lineSearch "LINE x=1".toList = none ∧
    (execute_line (reset initState []) "LINE x=1".toList).1.vars
      = [("LINE x".toList, .num 1)] ∧
    (execute_line (reset initState []) "LINE x=1".toList).1 ≠ reset initState [] :=
  ⟨by decide, by decide, by decide, by decide⟩

/-- C8 (amended): a drawing command line (`LINE`, `CIRCLE` or `PAINT`
keyword) whose text matches neither its coordinate pattern nor contains a
`=` character is a strict no-op: the state — pixels included — is returned
unchanged, with no exception; a malformed drawing line containing `=` is
instead executed as an assignment. -/
theorem c8_malformed_draw_no_equals_noop (s : BasicState) (l : List Char) (hne : '=' ∉ l)
    (hk : (pyStartsWith (toUpperL l) "LINE".toList = true ∧ lineSearch l = none) ∨
          (pyStartsWith (toUpperL l) "CIRCLE".toList = true ∧ circleSearch l = none) ∨
          (pyStartsWith (toUpperL l) "PAINT".toList = true ∧ paintSearch l = none)) :
    execute_line s l = (s, .ok false) := by
  have hsp := splitFirst_single_none '=' l hne
  show executeLineF (l.length + 1) s l = (s, .ok false)
  rw [executeLineF_succ]
  rcases hk with ⟨hpre, hre⟩ | ⟨hpre, hre⟩ | ⟨hpre, hre⟩
  · obtain ⟨t, ht⟩ := pyStartsWith_shape _ _ hpre
    rw [ht, hsp]
    unfold dispatchRest
    rw [ht]
    unfold cmdLine
    rw [hre]
    rfl
  · obtain ⟨t, ht⟩ := pyStartsWith_shape _ _ hpre
    rw [ht, hsp]
    unfold dispatchRest
    rw [ht]
    unfold cmdCircle
    rw [hre]
    rfl
  · obtain ⟨t, ht⟩ := pyStartsWith_shape _ _ hpre
    rw [ht, hsp]
    unfold dispatchRest
    rw [ht]
    unfold cmdPaint
    rw [hre]
    rfl

/-- C8 witness: `LINE foo` has no `=`, starts with the `LINE` keyword and
matches no pattern; executing it leaves the fresh state unchanged. -/
theorem c8_malformed_draw_no_equals_noop_witness :
    ('=' ∉ "LINE foo".toList ∧
      pyStartsWith (toUpperL "LINE foo".toList) "LINE".toList = true ∧
      lineSearch "LINE foo".toList = none) ∧
    execute_line (reset initState []) "LINE foo".toList = (reset initState [], .ok false) :=
  ⟨⟨by decide, by decide, by decide⟩,
    c8_malformed_draw_no_equals_noop (reset initState []) "LINE foo".toList (by decide)
      (Or.inl ⟨by decide, by decide⟩)⟩

/-- C9: evaluating any expression in any state never mutates the variable
environment — the source hands `eval` a copy (`env = dict(self.variables)`),
so the variables after `eval_expr` are exactly those before. -/
theorem c9_eval_preserves_vars (s : BasicState) (e : List Char) :
    (eval_expr s e).2.vars = s.vars := by
  unfold eval_expr
  split
  · rfl
  · split <;> rfl

/-- C10: executing a loop-close line with an empty loop stack is a no-op
rather than an error: the program counter is unchanged, no exception
arises, and a set `exit_loop` flag is cleared. -/
theorem c10_loop_empty_stack_noop (s : BasicState) (h : s.loop_stack = []) :
    execute_line s "LOOP".toList = ({ s with exit_loop := false }, .ok false) := by
  rcases s with ⟨pl, pc, vs, stack, ex, run, tc, surf, sw, sh, lk⟩
  simp only at h
  subst h
  cases ex <;> rfl

/-- C10 witness: the freshly reset state has an empty loop stack, and the
loop-close line leaves it unchanged with the flag cleared. -/
theorem c10_loop_empty_stack_noop_witness :
    (reset initState []).loop_stack = [] ∧
    execute_line (reset initState []) "LOOP".toList
      = ({ reset initState [] with exit_loop := false }, .ok false) :=
  ⟨rfl, c10_loop_empty_stack_noop (reset initState []) rfl⟩

end Basic
